import Mathlib

/-!
Shallow embedding of the color-identity engine of `src/mtgdb/color.py`
(classes `Color`, `ColorPie`, `Identity`, `IdentityMap` and the module-level
`MagicColorPie` / `MagicIdentities` objects).

Modelling conventions:
* Python raises are modelled by `Option`/`Except` results (`none`/`.error`
  models an escaping exception).
* `Color` defines no `__eq__`, so Python compares colors by object identity.
  Each allocated color therefore carries an allocation id; structural
  equality on `(id, symbol)` coincides with object identity as long as
  distinct allocations receive distinct ids, which every concrete object in
  this file respects.
* `ordered_set.OrderedSet` keeps the first occurrence of each element, in
  insertion order; `orderedSet` below does the same.
* Python `dict` preserves insertion order; it is modelled by an association
  list to which `add` appends.
-/

/-- A palette element (class `Color`): a symbol plus an allocation id
(see the conventions above). -/
structure Color where
  id : Nat
  symbol : String
deriving DecidableEq, Repr

/-- ASCII lower-casing, `str.lower` (all strings involved are ASCII).
(`String.toLower` itself is defined by well-founded recursion, which the
kernel cannot unfold; this char-by-char map is extensionally the same.) -/
def strLower (s : String) : String :=
  String.mk (s.data.map Char.toLower)

/-- ASCII upper-casing, `str.upper`. -/
def strUpper (s : String) : String :=
  String.mk (s.data.map Char.toUpper)

/-- `Color.__str__`: `"{W}"` style display, symbol upper-cased. -/
def Color.str (c : Color) : String :=
  "\x7b" ++ strUpper c.symbol ++ "\x7d"

/-- Helper for `orderedSet`: drop elements already seen, keep first
occurrences in order. -/
def dedupAux {α : Type} [DecidableEq α] (seen : List α) : List α → List α
  | [] => []
  | a :: rest => if a ∈ seen then dedupAux seen rest else a :: dedupAux (a :: seen) rest

/-- First-occurrence deduplication: the behaviour of `OrderedSet(xs)`. -/
def orderedSet {α : Type} [DecidableEq α] (l : List α) : List α :=
  dedupAux [] l

/-- An ordered palette (class `ColorPie`). -/
structure ColorPie where
  colors : List Color
deriving DecidableEq, Repr

/-- `ColorPie.sanitize`: reject a list in which some element occurs twice
(by object identity — `Counter` hashes `Color` by identity since the class
defines no `__hash__`/`__eq__`).  The error message lists each duplicate
once, in first-occurrence order, as `Counter` iteration does. -/
def ColorPie.sanitize (colors : List Color) : Except String (List Color) :=
  let duplicates := (orderedSet colors).filter (fun k => 1 < colors.count k)
  if duplicates.isEmpty then Except.ok colors
  else Except.error ("A color pie cannot hold the same color twice. "
    ++ String.intercalate "," (duplicates.map Color.str))

/-- `ColorPie.__init__`: construction sanitizes its arguments. -/
def ColorPie.make (colors : List Color) : Except String ColorPie :=
  (ColorPie.sanitize colors).map ColorPie.mk

/-- `ColorPie.__getitem__` with an integer key (list indexing). -/
def ColorPie.getIdx (p : ColorPie) (i : Nat) : Option Color :=
  p.colors[i]?

/-- `ColorPie.__getitem__` with a string key: the first color whose symbol
equals the key; `KeyError` (modelled `none`) when there is none. -/
def ColorPie.getSym (p : ColorPie) (s : String) : Option Color :=
  p.colors.find? (fun c => c.symbol == s)

/-- Index of the first element equal to `c` in a list, `none` when absent. -/
def indexAux (c : Color) : List Color → Option Nat
  | [] => none
  | x :: rest => if x = c then some 0 else (indexAux c rest).map (fun i => i + 1)

/-- `ColorPie.index` (the `Sequence` mixin): index of the first element equal
to `c`; `ValueError` (modelled `none`) when `c` is not a member. -/
def ColorPie.index (p : ColorPie) (c : Color) : Option Nat :=
  indexAux c p.colors

/-- `ColorPie.shift`: `self.colors[(step + self.index(color)) % len(self.colors)]`.
Python `%` with a positive modulus agrees with `Int.emod`. -/
def ColorPie.shift (p : ColorPie) (c : Color) (step : Int) : Option Color :=
  match p.index c with
  | none => none
  | some i => p.colors[((step + (i : Int)) % (p.colors.length : Int)).toNat]?

/-- A color identity (class `Identity`).  `colors` holds the `OrderedSet`
content; `_name` and `aliases` are the mutable description metadata. -/
structure Identity where
  pie : ColorPie
  colors : List Color
  _name : Option String
  aliases : List String
deriving DecidableEq, Repr

/-- `Identity.__init__`: dedup the given colors keeping first occurrences;
no name, no aliases. -/
def Identity.make (pie : ColorPie) (colors : List Color) : Identity :=
  { pie := pie, colors := orderedSet colors, _name := none, aliases := [] }

/-- `Identity.describe`: Python tests truthiness (`if name:` / `if aliases:`),
so `None` and the empty string / empty list leave the field untouched;
aliases are appended, never replaced. -/
def Identity.describe (i : Identity) (name : Option String)
    (aliases : Option (List String)) : Identity :=
  let i1 := match name with
    | some s => if s = "" then i else { i with _name := some s }
    | none => i
  match aliases with
  | some al => if al = [] then i1 else { i1 with aliases := i1.aliases ++ al }
  | none => i1

/-- `Identity.canonical`: `"colorless"` for the empty set, otherwise the
concatenation of the member symbols in stored (insertion) order. -/
def Identity.canonical (i : Identity) : String :=
  if i.colors.length = 0 then "colorless"
  else String.join (i.colors.map (fun c => c.symbol))

/-- The `Identity.name` property: `if not self._name: return self.canonical`
(both `None` and `""` are falsy). -/
def Identity.name (i : Identity) : String :=
  match i._name with
  | none => i.canonical
  | some s => if s = "" then i.canonical else s

/-- `Identity.checksum`: `sum(1 << pie.index(color) for color in colors)`;
`pie.index` raises (`none`) on a color foreign to the palette. -/
def Identity.checksum? (i : Identity) : Option Nat :=
  (i.colors.mapM (fun c => (i.pie.index c).map (fun k => 2 ^ k))).map
    (fun l => l.sum)

/-- Bool test: `ps` begins the list `ts`. -/
def startsWithList : List Char → List Char → Bool
  | [], _ => true
  | _ :: _, [] => false
  | p :: ps, t :: ts => p == t && startsWithList ps ts

/-- Bool test: `pat` occurs contiguously inside the second list
(Python `pat in text` on strings). -/
def isSubstrList (pat : List Char) : List Char → Bool
  | [] => pat.isEmpty
  | t :: ts => startsWithList pat (t :: ts) || isSubstrList pat ts

/-- Python substring containment `pat in text`. -/
def strContains (text pat : String) : Bool :=
  isSubstrList pat.data text.data

/-- `Identity.matches`: the search string is lower-cased; it matches when it
is a substring of the lower-cased `name`, or when it EQUALS one of the
lower-cased aliases (`search in map(lower, aliases)` is membership in an
iterator — element equality, not substring search). -/
def Identity.matches (i : Identity) (k : String) : Bool :=
  let search := strLower k
  if strContains (strLower i.name) search then true
  else if (i.aliases.map (fun a => strLower a)).contains search then true
  else false

/-- `Identity.__eq__` between two identities: checksum comparison; a
checksum failure (foreign color) propagates, modelled `none`. -/
def Identity.beq? (i other : Identity) : Option Bool :=
  match other.checksum?, i.checksum? with
  | some a, some b => some (a == b)
  | _, _ => none

/-- `ColorPie.parse`: look each letter up as a symbol, in order; the first
unknown letter raises `KeyError` (modelled `none`). -/
def ColorPie.parse (p : ColorPie) (s : String) : Option Identity :=
  (s.data.mapM (fun letter => p.getSym (String.singleton letter))).map
    (fun colors => Identity.make p colors)

/-- `ColorPie.combinations`: every mathematical subset of every size, each
wrapped as an Identity.  (`itertools.combinations` enumerates subsets in a
different order than `sublistsLen`, but each subset keeps its elements in
palette order and each subset appears exactly once, which is all the claims
quantify over.) -/
def ColorPie.combinations (p : ColorPie) : List Identity :=
  (List.range (p.colors.length + 1)).flatMap
    (fun length => (List.sublistsLen length p.colors).map
      (fun c => Identity.make p c))

/-- The identity registry (class `IdentityMap`): an insertion-ordered map
from checksum to the first identity registered with that checksum. -/
structure IdentityMap where
  pie : ColorPie
  map : List (Nat × Identity)
deriving DecidableEq, Repr

/-- Dict lookup by checksum key. -/
def IdentityMap.lookupChecksum (m : IdentityMap) (k : Nat) : Option Identity :=
  (m.map.find? (fun e => e.1 == k)).map (fun e => e.2)

/-- `IdentityMap.add`: insert unless the checksum is already bound (the dict
keeps the first registration).  A checksum failure propagates (`none`). -/
def IdentityMap.add (m : IdentityMap) (ident : Identity) : Option IdentityMap :=
  match ident.checksum? with
  | none => none
  | some k =>
    if (m.lookupChecksum k).isSome then some m
    else some { m with map := m.map ++ [(k, ident)] }

/-- `IdentityMap.__getitem__` with a string key: try `parse` + checksum
lookup (any `KeyError` inside the `try` falls through), else scan the values
in insertion order for the first `matches`; `none` models the final
`raise KeyError`.  (`checksum?` of a parsed identity never fails — `parse`
only returns palette members — so routing its `none` with the two caught
`KeyError`s is unobservable.) -/
def IdentityMap.getStr (m : IdentityMap) (k : String) : Option Identity :=
  match (m.pie.parse k).bind
      (fun mtch => mtch.checksum?.bind (fun cks => m.lookupChecksum cks)) with
  | some v => some v
  | none => (m.map.find? (fun e => e.2.matches k)).map (fun e => e.2)

/-- The `while i < n - 1` chain-building loop of `build_identity_map`,
parameterised by the number of `shift` applications left. -/
def chainAux (p : ColorPie) (step : Int) (last : Color) (acc : List Color) :
    Nat → Option (List Color)
  | 0 => some acc
  | k + 1 =>
    match p.shift last step with
    | none => none
    | some c => chainAux p step c (acc ++ [c]) k

/-- A full chain: start color followed by `n - 1` shifted picks. -/
def buildChain (p : ColorPie) (start : Color) (step : Int) (n : Nat) :
    Option (List Color) :=
  chainAux p step start [start] (n - 1)

/-- `ColorPie.build_identity_map`: seed with the colorless identity, then for
every size `n` in `0..t`, step `s` in `1..n` (skipping `s` when
`t % s == 0 and t / s < n` — with `t % s == 0` the Python float division
`t / s` equals natural division), and starting color, register the chain. -/
def ColorPie.build_identity_map (p : ColorPie) : Option IdentityMap :=
  ((IdentityMap.mk p []).add (Identity.make p [])).bind (fun m1 =>
    (List.range (p.colors.length + 1)).foldlM (fun m n =>
      (List.range' 1 n).foldlM (fun m step =>
        if p.colors.length % step = 0 ∧ p.colors.length / step < n then some m
        else
          p.colors.foldlM (fun m color =>
            (buildChain p color (step : Int) n).bind (fun chain =>
              m.add (Identity.make p chain))) m) m) m1)

/-- Module-level color objects (distinct allocations, hence distinct ids). -/
def White : Color := { id := 0, symbol := "w" }

def Blue : Color := { id := 1, symbol := "u" }

def Black : Color := { id := 2, symbol := "b" }

def Red : Color := { id := 3, symbol := "r" }

def Green : Color := { id := 4, symbol := "g" }

/-- `MagicColorPie = ColorPie(White, Blue, Black, Red, Green)` (sanitize
succeeds on these five distinct objects; see `MagicColorPie_make`). -/
def MagicColorPie : ColorPie :=
  { colors := [White, Blue, Black, Red, Green] }

/-- Construction through `sanitize` indeed yields `MagicColorPie`. -/
theorem MagicColorPie_make : ColorPie.make [White, Blue, Black, Red, Green]
    = Except.ok MagicColorPie := by rfl

/-- A sixth distinct color, as in the repository's own six-color test
(`tests/test_color.py`, `Purple = Color("p")`). -/
def Purple : Color := { id := 5, symbol := "p" }

/-- The six-color palette of `test_combinations_with_six_color_pie`. -/
def SixPie : ColorPie :=
  { colors := [White, Blue, Black, Red, Green, Purple] }

/-- The module-level statement pattern `registry[key].describe(name, aliases)`:
look the key up (a failure — `KeyError` — propagates), then replace the found
identity, in place, by its described version.  (Within one registry distinct
entries are structurally distinct — they differ in `colors` — so replacing by
value is replacing the one mutated object.) -/
def IdentityMap.describeKey (m : IdentityMap) (k : String) (name : Option String)
    (aliases : Option (List String)) : Option IdentityMap :=
  match m.getStr k with
  | none => none
  | some i => some { m with
      map := m.map.map (fun e => if e.2 = i then (e.1, i.describe name aliases) else e) }

/-- The module-level `describe` configuration (lines 213-244 of the source):
each triple is one `MagicIdentities[key].describe(name, aliases)` statement,
in source order. -/
def magicDescribes : List (String × Option String × Option (List String)) :=
  [ ("", some "Colorless", none),
    ("w", some "Mono-White", some ["White"]),
    ("u", some "Mono-Blue", some ["Blue"]),
    ("b", some "Mono-Black", some ["Black"]),
    ("r", some "Mono-Red", some ["Red"]),
    ("g", some "Mono-Green", some ["Green"]),
    ("wu", some "Azorius", some ["Azorius Senate"]),
    ("ub", some "Dimir", some ["House Dimir"]),
    ("br", some "Rakdos", some ["Cult of Rakdos"]),
    ("rg", some "Gruul", some ["Gruul Clans"]),
    ("gu", some "Simic", some ["Simic Combine", "Quandrix"]),
    ("gw", some "Selesnya", some ["Selesnya Conclave"]),
    ("wb", some "Orzhov", some ["Orzhov Syndicate", "Silverquill"]),
    ("ur", some "Izzet", some ["Izzet League", "Prismari"]),
    ("rw", some "Boros", some ["Boros Legion", "Lorehold"]),
    ("gb", some "Golgari", some ["Golgari Swarm", "Witherbloom"]),
    ("wub", some "Esper", some ["Obscura"]),
    ("ubr", some "Grixis", some ["Maestros"]),
    ("brg", some "Jund", some ["Riveteers"]),
    ("rgw", some "Naya", some ["Cabaretti"]),
    ("guw", some "Bant", some ["Brokers"]),
    ("wbg", some "Abzan", some ["Abzan Houses", "Indatha"]),
    ("urw", some "Jeskai", some ["Jeskai Way", "Raugrin"]),
    ("bgu", some "Sultai", some ["Sultai Brood", "Zagoth"]),
    ("rwb", some "Mardu", some ["Mardu Horde", "Savai"]),
    ("gur", some "Temur", some ["Temur Frontier", "Ketria"]),
    ("wubr", some "Artifice", some ["Yore-Tiller", "Green-less", "Yore"]),
    ("ubrg", some "Chaos", some ["Glint-Eye", "White-less", "Glint"]),
    ("brgw", some "Aggression", some ["Dune-Brood", "Blue-less", "Dune"]),
    ("rgwu", some "Altruism", some ["Ink-Treader", "Black-less", "Ink"]),
    ("gwub", some "Growth", some ["Witch-Maw", "Red-less", "Witch"]),
    ("wubrg", some "Five-Color", some ["5c", "Rainbow"]) ]

/-- `MagicIdentities`: the registry built from `MagicColorPie`, then the
module-level `describe` statements applied in source order. -/
def MagicIdentities : Option IdentityMap :=
  (MagicColorPie.build_identity_map).bind (fun m =>
    magicDescribes.foldlM (fun m d => m.describeKey d.1 d.2.1 d.2.2) m)

/-! ### Supporting lemmas about the helper functions -/

theorem mem_dedupAux {α : Type} [DecidableEq α] (l : List α) :
    ∀ (seen : List α) (a : α), a ∈ dedupAux seen l ↔ a ∈ l ∧ a ∉ seen := by
  induction l with
  | nil => intro seen a; simp [dedupAux]
  | cons b rest ih =>
    intro seen a
    by_cases hb : b ∈ seen
    · rw [dedupAux, if_pos hb, ih]
      simp only [List.mem_cons]
      constructor
      · rintro ⟨h1, h2⟩; exact ⟨Or.inr h1, h2⟩
      · rintro ⟨h1 | h1, h2⟩
        · subst h1; exact absurd hb h2
        · exact ⟨h1, h2⟩
    · rw [dedupAux, if_neg hb]
      simp only [List.mem_cons, ih (b :: seen), List.mem_cons, not_or]
      constructor
      · rintro (rfl | ⟨h1, h2, h3⟩)
        · exact ⟨Or.inl rfl, hb⟩
        · exact ⟨Or.inr h1, h3⟩
      · rintro ⟨rfl | h1, h2⟩
        · exact Or.inl rfl
        · by_cases hab : a = b
          · exact Or.inl hab
          · exact Or.inr ⟨h1, hab, h2⟩

theorem nodup_dedupAux {α : Type} [DecidableEq α] (l : List α) :
    ∀ seen : List α, (dedupAux seen l).Nodup := by
  induction l with
  | nil => intro seen; simp [dedupAux]
  | cons b rest ih =>
    intro seen
    by_cases hb : b ∈ seen
    · rw [dedupAux, if_pos hb]; exact ih seen
    · rw [dedupAux, if_neg hb, List.nodup_cons]
      refine ⟨fun hmem => ?_, ih (b :: seen)⟩
      rw [mem_dedupAux] at hmem
      exact hmem.2 (List.mem_cons_self b seen)

theorem mem_orderedSet {α : Type} [DecidableEq α] (l : List α) (a : α) :
    a ∈ orderedSet l ↔ a ∈ l := by
  simp [orderedSet, mem_dedupAux]

theorem nodup_orderedSet {α : Type} [DecidableEq α] (l : List α) :
    (orderedSet l).Nodup :=
  nodup_dedupAux l []

theorem orderedSet_eq_nil {α : Type} [DecidableEq α] (l : List α) :
    orderedSet l = [] ↔ l = [] := by
  cases l with
  | nil => simp [orderedSet, dedupAux]
  | cons b rest => simp [orderedSet, dedupAux]

theorem indexAux_eq_none (c : Color) (l : List Color) :
    indexAux c l = none ↔ c ∉ l := by
  induction l with
  | nil => simp [indexAux]
  | cons x rest ih =>
    by_cases hx : x = c
    · simp [indexAux, hx]
    · simp only [indexAux, if_neg hx, Option.map_eq_none', ih, List.mem_cons, not_or]
      constructor
      · intro h; exact ⟨fun hcx => hx hcx.symm, h⟩
      · intro h; exact h.2

theorem indexAux_get (c : Color) (l : List Color) :
    ∀ i : Nat, indexAux c l = some i → l[i]? = some c := by
  induction l with
  | nil => intro i h; simp [indexAux] at h
  | cons x rest ih =>
    intro i h
    by_cases hx : x = c
    · rw [indexAux, if_pos hx] at h
      cases h
      simpa using hx
    · rw [indexAux, if_neg hx] at h
      cases hj : indexAux c rest with
      | none => rw [hj] at h; simp at h
      | some j =>
        rw [hj] at h
        simp only [Option.map_some'] at h
        cases h
        simpa using ih j hj

theorem indexAux_lt (c : Color) (l : List Color) (i : Nat)
    (h : indexAux c l = some i) : i < l.length := by
  have hg := indexAux_get c l i h
  rw [List.getElem?_eq_some] at hg
  exact hg.1

theorem indexAux_isSome_of_mem (c : Color) (l : List Color) (h : c ∈ l) :
    ∃ i, indexAux c l = some i := by
  cases heq : indexAux c l with
  | none => exact absurd ((indexAux_eq_none c l).mp heq) (fun hn => hn h)
  | some i => exact ⟨i, rfl⟩

theorem indexAux_inj (l : List Color) (c d : Color) (i : Nat)
    (hc : indexAux c l = some i) (hd : indexAux d l = some i) : c = d := by
  have h1 := indexAux_get c l i hc
  have h2 := indexAux_get d l i hd
  rw [h1] at h2
  exact Option.some.inj h2

theorem mapM_option_eq_some_map {α β : Type} (f : α → Option β) (g : α → β) :
    ∀ l : List α, (∀ a ∈ l, f a = some (g a)) → l.mapM f = some (l.map g) := by
  intro l
  induction l with
  | nil => intro _; rfl
  | cons a rest ih =>
    intro h
    rw [List.mapM_cons, h a (List.mem_cons_self a rest),
      ih (fun b hb => h b (List.mem_cons_of_mem a hb))]
    rfl

theorem find?_append_some {α : Type} (p : α → Bool) (l l2 : List α) (e : α)
    (h : l.find? p = some e) : (l ++ l2).find? p = some e := by
  induction l with
  | nil => simp at h
  | cons a rest ih =>
    by_cases ha : p a
    · rw [List.find?_cons_of_pos rest ha] at h
      rw [List.cons_append, List.find?_cons_of_pos _ ha]
      exact h
    · rw [List.find?_cons_of_neg rest (by simpa using ha)] at h
      rw [List.cons_append, List.find?_cons_of_neg _ (by simpa using ha)]
      exact ih h

theorem foldlM_option_inv {α β : Type} (P : β → Prop) (f : β → α → Option β)
    (hf : ∀ b a b2, P b → f b a = some b2 → P b2) :
    ∀ (l : List α) (b b2 : β), P b → l.foldlM f b = some b2 → P b2 := by
  intro l
  induction l with
  | nil =>
    intro b b2 hP h
    simp only [List.foldlM_nil, pure, Option.some.injEq] at h
    exact h ▸ hP
  | cons a rest ih =>
    intro b b2 hP h
    rw [List.foldlM_cons] at h
    cases hfa : f b a with
    | none => rw [hfa] at h; simp at h
    | some b1 =>
      rw [hfa] at h
      simp only [Option.pure_def, Option.bind_eq_bind, Option.some_bind] at h
      exact ih b1 b2 (hf b a b1 hP hfa) h

/-- `describe` never touches the `colors` or `pie` fields. -/
theorem describe_colors_pie (i : Identity) (nm : Option String)
    (al : Option (List String)) :
    (i.describe nm al).colors = i.colors ∧ (i.describe nm al).pie = i.pie := by
  unfold Identity.describe
  cases nm with
  | none =>
    cases al with
    | none => exact ⟨rfl, rfl⟩
    | some a => by_cases h : a = [] <;> simp [h]
  | some s =>
    cases al with
    | none => by_cases h : s = "" <;> simp [h]
    | some a => by_cases h : s = "" <;> by_cases h2 : a = [] <;> simp [h, h2]

/-- `checksum?` only reads the `pie` and `colors` fields. -/
theorem checksum_congr (i j : Identity) (hc : i.colors = j.colors)
    (hp : i.pie = j.pie) : i.checksum? = j.checksum? := by
  unfold Identity.checksum?
  rw [hc, hp]

/-- `canonical` only reads the `colors` field. -/
theorem canonical_congr (i j : Identity) (hc : i.colors = j.colors) :
    i.canonical = j.canonical := by
  unfold Identity.canonical
  rw [hc]

/-- C2 (amended): `canonical` of the empty Identity is `"colorless"`, and
`canonical` of a non-empty Identity concatenates the member symbols in
first-insertion order (duplicates dropped) — the order the colors were
supplied in, not the palette order. -/
theorem canonical_colorless_and_insertion_order (p : ColorPie) (cs : List Color) :
    (cs = [] → (Identity.make p cs).canonical = "colorless")
    ∧ (cs ≠ [] → (Identity.make p cs).canonical
        = String.join ((orderedSet cs).map (fun c => c.symbol))) := by
  constructor
  · rintro rfl; rfl
  · intro h
    have hne : orderedSet cs ≠ [] := fun hh => h ((orderedSet_eq_nil cs).mp hh)
    have hlen : ¬ (orderedSet cs).length = 0 :=
      fun hh => hne (List.length_eq_zero.mp hh)
    simp only [Identity.canonical, Identity.make, if_neg hlen]

/-- C2 counterexample: on the palette ordered `[W, U, B, R, G]`, the Identity
built from `[Red, White]` canonicalizes to `"rw"` (insertion order), not to
the palette-order string `"wr"` the claim predicts. -/
theorem canonical_not_palette_order :
    (Identity.make MagicColorPie [Red, White]).canonical = "rw"
    ∧ (Identity.make MagicColorPie [Red, White]).canonical ≠ "wr" := by
  exact ⟨rfl, by decide⟩

/-- C2 witness: the amended statement evaluated at `[Red, White]`. -/
theorem canonical_insertion_order_witness :
    (Identity.make MagicColorPie [Red, White]).canonical
      = String.join ((orderedSet [Red, White]).map (fun c => c.symbol)) :=
  (canonical_colorless_and_insertion_order MagicColorPie [Red, White]).2 (by decide)

/-- C4: `sanitize` compares by object identity, so two DISTINCT `Color`
objects sharing the symbol `"w"` are ACCEPTED (first conjunct), while only
the very same object given twice is rejected, with the message naming the
duplicate (second conjunct).  The claim (and the stated invariant) expect
the first construction to fail. -/
theorem duplicate_symbol_not_rejected :
    ColorPie.make [Color.mk 0 "w", Color.mk 1 "w"]
      = Except.ok (ColorPie.mk [Color.mk 0 "w", Color.mk 1 "w"])
    ∧ ColorPie.make [White, White]
      = Except.error "A color pie cannot hold the same color twice. \x7bW\x7d" := by
  exact ⟨rfl, rfl⟩

/-- C8 (amended): `describe` with a NON-EMPTY name overwrites the stored
display name; `describe` with the empty string is a no-op on the name (Python
tests truthiness, the correction forced by the counterexample); aliases given
to `describe` are always appended to the existing list, never replacing it. -/
theorem describe_overrides_and_appends (i : Identity) (s : String) (al : List String) :
    (s ≠ "" → (i.describe (some s) none)._name = some s
      ∧ (i.describe (some s) (some al))._name = some s)
    ∧ (i.describe (some "") none = i)
    ∧ ((i.describe none (some al)).aliases = i.aliases ++ al)
    ∧ ((i.describe (some s) (some al)).aliases = i.aliases ++ al)
    ∧ ((i.describe none (some al))._name = i._name) := by
  refine ⟨fun hs => ⟨?_, ?_⟩, ?_, ?_, ?_, ?_⟩
  · simp [Identity.describe, hs]
  · by_cases h2 : al = [] <;> simp [Identity.describe, hs, h2]
  · simp [Identity.describe]
  · by_cases h2 : al = [] <;> simp [Identity.describe, h2]
  · by_cases hs : s = "" <;> by_cases h2 : al = [] <;>
      simp [Identity.describe, hs, h2]
  · by_cases h2 : al = [] <;> simp [Identity.describe, h2]

/-- C8 counterexample: after setting the name to `"A"`, a `describe` call
with the name `""` provided does NOT overwrite the stored name (Python
`if name:` is false for the empty string), contradicting the claim that any
provided name overwrites. -/
theorem describe_empty_name_ignored :
    (((Identity.make MagicColorPie [White]).describe (some "A") none).describe
        (some "") none)._name = some "A"
    ∧ (some "A" : Option String) ≠ some "" := by
  exact ⟨rfl, by decide⟩

/-- C8 witness: `describe(aliases=["X"])` then `describe(aliases=["Y"])`
leaves `["X", "Y"]`, and a later `describe(name="Z")` sets the name. -/
theorem describe_witness :
    ((((Identity.make MagicColorPie []).describe none (some ["X"])).describe
        none (some ["Y"])).aliases = ["X", "Y"])
    ∧ ((((Identity.make MagicColorPie []).describe none (some ["X"])).describe
        (some "Z") none)._name = some "Z") := by
  constructor
  · rw [(describe_overrides_and_appends
        ((Identity.make MagicColorPie []).describe none (some ["X"])) "Z" ["Y"]).2.2.1,
      (describe_overrides_and_appends (Identity.make MagicColorPie []) "Z" ["X"]).2.2.1]
    rfl
  · exact ((describe_overrides_and_appends
      ((Identity.make MagicColorPie []).describe none (some ["X"])) "Z" []).1
      (by decide)).1

/-- C9: `describe` is frame-preserving — it can change only the name and
alias metadata: the member colors, owning palette, checksum, canonical string
and checksum-based equality against any other identity are all unchanged. -/
theorem describe_frame (i : Identity) (nm : Option String) (al : Option (List String)) :
    ((i.describe nm al).colors = i.colors)
    ∧ ((i.describe nm al).pie = i.pie)
    ∧ ((i.describe nm al).checksum? = i.checksum?)
    ∧ ((i.describe nm al).canonical = i.canonical)
    ∧ (∀ j : Identity, (i.describe nm al).beq? j = i.beq? j
        ∧ j.beq? (i.describe nm al) = j.beq? i) := by
  obtain ⟨hc, hp⟩ := describe_colors_pie i nm al
  have hsum : (i.describe nm al).checksum? = i.checksum? := checksum_congr _ _ hc hp
  refine ⟨hc, hp, hsum, canonical_congr _ _ hc, fun j => ⟨?_, ?_⟩⟩
  · unfold Identity.beq?; rw [hsum]
  · unfold Identity.beq?; rw [hsum]

/-- C7: for a member color with first index `i`, `shift` returns the palette
element at position `(step + i) mod length` — the modulus always lands in
range, so `shift` of a member never fails, for every integer step including
negative ones; `shift` of a non-member fails (`list.index` raises). -/
theorem shift_mod_and_membership (p : ColorPie) (c : Color) (step : Int) :
    (c ∉ p.colors → p.shift c step = none)
    ∧ (∀ i : Nat, p.index c = some i →
        ((step + (i : Int)) % (p.colors.length : Int)).toNat < p.colors.length
        ∧ p.shift c step
            = p.colors[((step + (i : Int)) % (p.colors.length : Int)).toNat]?
        ∧ (p.shift c step).isSome = true) := by
  constructor
  · intro hc
    unfold ColorPie.shift
    rw [show p.index c = none from (indexAux_eq_none c p.colors).mpr hc]
  · intro i hi
    have hlt := indexAux_lt c p.colors i hi
    have hlen : (0 : Int) < (p.colors.length : Int) := by
      exact_mod_cast Nat.lt_of_le_of_lt (Nat.zero_le i) hlt
    have h1 : 0 ≤ (step + (i : Int)) % (p.colors.length : Int) :=
      Int.emod_nonneg _ (by omega)
    have h2 : (step + (i : Int)) % (p.colors.length : Int)
        < (p.colors.length : Int) := Int.emod_lt_of_pos _ hlen
    have hrange : ((step + (i : Int)) % (p.colors.length : Int)).toNat
        < p.colors.length := by omega
    refine ⟨hrange, ?_, ?_⟩
    · simp only [ColorPie.shift, hi]
    · simp only [ColorPie.shift, hi, List.getElem?_eq_getElem hrange,
        Option.isSome_some]

/-- C7 witness: a negative step wraps backward on the concrete palette, and
shifting a non-member fails. -/
theorem shift_witness :
    MagicColorPie.shift Blue (-2)
      = MagicColorPie.colors[
          (((-2 : Int) + ((1 : Nat) : Int)) % (MagicColorPie.colors.length : Int)).toNat]?
    ∧ MagicColorPie.shift Purple 1 = none := by
  constructor
  · exact ((shift_mod_and_membership MagicColorPie Blue (-2)).2 1 (by decide)).2.1
  · exact (shift_mod_and_membership MagicColorPie Purple 1).1 (by decide)

theorem find?_append_none {α : Type} (p : α → Bool) (l l2 : List α)
    (h : l.find? p = none) : (l ++ l2).find? p = l2.find? p := by
  induction l with
  | nil => simp
  | cons a rest ih =>
    by_cases ha : p a
    · rw [List.find?_cons_of_pos rest ha] at h; simp at h
    · rw [List.find?_cons_of_neg rest (by simpa using ha)] at h
      rw [List.cons_append, List.find?_cons_of_neg _ (by simpa using ha)]
      exact ih h

/-- C6: `add` appends a new binding exactly when the identity's checksum is
not yet bound (and the new binding is then retrievable), and is a silent
no-op returning the map unchanged when the checksum is already bound — so
the first identity registered for a checksum is the one the registry keeps. -/
theorem add_first_writer_wins (m : IdentityMap) (i : Identity) (k : Nat)
    (hk : i.checksum? = some k) :
    (m.lookupChecksum k = none →
        m.add i = some (IdentityMap.mk m.pie (m.map ++ [(k, i)])))
    ∧ (m.lookupChecksum k = none →
        (IdentityMap.mk m.pie (m.map ++ [(k, i)])).lookupChecksum k = some i)
    ∧ (∀ v : Identity, m.lookupChecksum k = some v → m.add i = some m) := by
  refine ⟨fun h => ?_, fun h => ?_, fun v h => ?_⟩
  · simp [IdentityMap.add, hk, h]
  · have hf : m.map.find? (fun e => e.1 == k) = none := by
      have := h
      unfold IdentityMap.lookupChecksum at this
      exact Option.map_eq_none'.mp this
    unfold IdentityMap.lookupChecksum
    rw [find?_append_none _ _ _ hf]
    simp [List.find?]
  · simp [IdentityMap.add, hk, h]

/-- C6 witness: adding the mono-white identity to the empty registry inserts
it at checksum 1; adding another identity with the same checksum afterwards
is a no-op that keeps the first entry. -/
theorem add_witness :
    (IdentityMap.mk MagicColorPie []).add (Identity.make MagicColorPie [White])
      = some (IdentityMap.mk MagicColorPie [(1, Identity.make MagicColorPie [White])])
    ∧ (IdentityMap.mk MagicColorPie
        [(1, Identity.make MagicColorPie [White])]).add
          ((Identity.make MagicColorPie [White]).describe (some "Other") none)
      = some (IdentityMap.mk MagicColorPie [(1, Identity.make MagicColorPie [White])]) := by
  constructor
  · exact (add_first_writer_wins (IdentityMap.mk MagicColorPie [])
      (Identity.make MagicColorPie [White]) 1 (by decide)).1 (by decide)
  · exact (add_first_writer_wins
      (IdentityMap.mk MagicColorPie [(1, Identity.make MagicColorPie [White])])
      ((Identity.make MagicColorPie [White]).describe (some "Other") none) 1
      (by decide)).2.2 (Identity.make MagicColorPie [White]) (by decide)

/-- The totalized first-index function used in the checksum lemmas (for
palette members it equals the index `pie.index` returns). -/
def idxIn (p : ColorPie) (c : Color) : Nat :=
  (indexAux c p.colors).getD 0

theorem idxIn_inj (p : ColorPie) (c d : Color) (hc : c ∈ p.colors)
    (hd : d ∈ p.colors) (h : idxIn p c = idxIn p d) : c = d := by
  obtain ⟨i, hi⟩ := indexAux_isSome_of_mem c p.colors hc
  obtain ⟨j, hj⟩ := indexAux_isSome_of_mem d p.colors hd
  unfold idxIn at h
  rw [hi, hj] at h
  simp only [Option.getD_some] at h
  subst h
  exact indexAux_inj p.colors c d i hi hj

/-- For an identity built from palette members, `checksum?` succeeds and
computes the sum of `2 ^ index` over the deduplicated members. -/
theorem checksum_make (p : ColorPie) (cs : List Color)
    (h : ∀ c ∈ cs, c ∈ p.colors) :
    (Identity.make p cs).checksum?
      = some (((orderedSet cs).map (fun c => 2 ^ idxIn p c)).sum) := by
  unfold Identity.checksum? Identity.make
  rw [mapM_option_eq_some_map _ (fun c => 2 ^ idxIn p c) (orderedSet cs) ?_]
  · rfl
  · intro c hc
    have hmem : c ∈ p.colors := h c ((mem_orderedSet cs c).mp hc)
    obtain ⟨i, hi⟩ := indexAux_isSome_of_mem c p.colors hmem
    simp [ColorPie.index, hi, idxIn]

/-- Core of C5: over lists of palette members without duplicates, the
`2 ^ index` sums agree exactly when the member sets agree. -/
theorem checksum_eq_iff_members (p : ColorPie) (A B : List Color)
    (hA : A.Nodup) (hB : B.Nodup)
    (hAm : ∀ c ∈ A, c ∈ p.colors) (hBm : ∀ c ∈ B, c ∈ p.colors) :
    ((A.map (fun c => 2 ^ idxIn p c)).sum = (B.map (fun c => 2 ^ idxIn p c)).sum)
    ↔ (∀ c, c ∈ A ↔ c ∈ B) := by
  have nodupA : (A.map (idxIn p)).Nodup :=
    hA.map_on (fun x hx y hy hxy => idxIn_inj p x y (hAm x hx) (hAm y hy) hxy)
  have nodupB : (B.map (idxIn p)).Nodup :=
    hB.map_on (fun x hx y hy hxy => idxIn_inj p x y (hBm x hx) (hBm y hy) hxy)
  have hsumA : (A.map (fun c => 2 ^ idxIn p c)).sum
      = (A.map (idxIn p)).toFinset.sum (fun i => 2 ^ i) := by
    rw [List.sum_toFinset _ nodupA, List.map_map]
    rfl
  have hsumB : (B.map (fun c => 2 ^ idxIn p c)).sum
      = (B.map (idxIn p)).toFinset.sum (fun i => 2 ^ i) := by
    rw [List.sum_toFinset _ nodupB, List.map_map]
    rfl
  constructor
  · intro hsum c
    have hfin : (A.map (idxIn p)).toFinset = (B.map (idxIn p)).toFinset := by
      apply Finset.geomSum_injective (le_refl 2)
      simp only
      rw [← hsumA, ← hsumB]
      exact hsum
    constructor
    · intro hcA
      have : idxIn p c ∈ (B.map (idxIn p)).toFinset := by
        rw [← hfin]
        simp only [List.mem_toFinset, List.mem_map]
        exact ⟨c, hcA, rfl⟩
      simp only [List.mem_toFinset, List.mem_map] at this
      obtain ⟨d, hdB, hd⟩ := this
      exact idxIn_inj p d c (hBm d hdB) (hAm c hcA) hd ▸ hdB
    · intro hcB
      have : idxIn p c ∈ (A.map (idxIn p)).toFinset := by
        rw [hfin]
        simp only [List.mem_toFinset, List.mem_map]
        exact ⟨c, hcB, rfl⟩
      simp only [List.mem_toFinset, List.mem_map] at this
      obtain ⟨d, hdA, hd⟩ := this
      exact idxIn_inj p d c (hAm d hdA) (hBm c hcB) hd ▸ hdA
  · intro hmem
    have hfin : (A.map (idxIn p)).toFinset = (B.map (idxIn p)).toFinset := by
      apply Finset.ext
      intro x
      simp only [List.mem_toFinset, List.mem_map]
      constructor
      · rintro ⟨c, hc, rfl⟩; exact ⟨c, (hmem c).mp hc, rfl⟩
      · rintro ⟨c, hc, rfl⟩; exact ⟨c, (hmem c).mpr hc, rfl⟩
    rw [hsumA, hsumB, hfin]

/-- C5: identities drawn from one palette are `==`-equal exactly when their
member sets coincide; equivalently the checksums coincide exactly then (the
checksum is injective over subsets of the palette), and the checksum of the
empty identity is 0. -/
theorem identity_eq_iff_same_members (p : ColorPie) (cs ds : List Color)
    (hcs : ∀ c ∈ cs, c ∈ p.colors) (hds : ∀ c ∈ ds, c ∈ p.colors) :
    ((Identity.make p cs).beq? (Identity.make p ds) = some true
        ↔ (∀ c, c ∈ cs ↔ c ∈ ds))
    ∧ ((Identity.make p cs).checksum? = (Identity.make p ds).checksum?
        ↔ (∀ c, c ∈ cs ↔ c ∈ ds))
    ∧ (Identity.make p []).checksum? = some 0 := by
  have hA := checksum_make p cs hcs
  have hB := checksum_make p ds hds
  have hcore := checksum_eq_iff_members p (orderedSet cs) (orderedSet ds)
    (nodup_orderedSet cs) (nodup_orderedSet ds)
    (fun c hc => hcs c ((mem_orderedSet cs c).mp hc))
    (fun c hc => hds c ((mem_orderedSet ds c).mp hc))
  have hms : (∀ c, c ∈ orderedSet cs ↔ c ∈ orderedSet ds)
      ↔ (∀ c, c ∈ cs ↔ c ∈ ds) := by
    constructor
    · intro h c; rw [← mem_orderedSet cs c, ← mem_orderedSet ds c]; exact h c
    · intro h c; rw [mem_orderedSet cs c, mem_orderedSet ds c]; exact h c
  refine ⟨?_, ?_, rfl⟩
  · unfold Identity.beq?
    rw [hA, hB]
    simp only [Option.some.injEq, beq_iff_eq]
    rw [← hms, ← hcore]
    constructor
    · intro h; exact h.symm
    · intro h; exact h.symm
  · rw [hA, hB]
    simp only [Option.some.injEq]
    rw [← hms, ← hcore]

/-- C5 witness: `[Red, Black]` and `[Black, Red]` give equal identities on
the concrete palette. -/
theorem identity_eq_witness :
    (Identity.make MagicColorPie [Red, Black]).beq?
      (Identity.make MagicColorPie [Black, Red]) = some true :=
  ((identity_eq_iff_same_members MagicColorPie [Red, Black] [Black, Red]
      (by decide) (by decide)).1).mpr
    (fun c => by simp only [List.mem_cons, List.not_mem_nil, or_false]; tauto)

/-- `add` never disturbs an existing binding: whatever checksum was already
resolvable resolves to the same identity afterwards. -/
theorem add_preserves (m m2 : IdentityMap) (i : Identity) (k : Nat) (v : Identity)
    (hv : m.lookupChecksum k = some v) (h : m.add i = some m2) :
    m2.lookupChecksum k = some v := by
  unfold IdentityMap.add at h
  cases hc : i.checksum? with
  | none => rw [hc] at h; simp at h
  | some k2 =>
    rw [hc] at h
    have h2 : (if (m.lookupChecksum k2).isSome = true then some m
        else some (IdentityMap.mk m.pie (m.map ++ [(k2, i)]))) = some m2 := h
    by_cases hl : (m.lookupChecksum k2).isSome = true
    · rw [if_pos hl] at h2
      cases h2
      exact hv
    · rw [if_neg hl] at h2
      cases h2
      unfold IdentityMap.lookupChecksum at hv ⊢
      cases hf : m.map.find? (fun e => e.1 == k) with
      | none => rw [hf] at hv; simp at hv
      | some e =>
        rw [hf] at hv
        rw [find?_append_some _ _ [(k2, i)] e hf]
        exact hv

/-- Every registry produced by `build_identity_map` binds checksum 0 to the
colorless identity seeded first: the seed is the first write for key 0 and
`add` never overwrites. -/
theorem build_seeds_colorless (p : ColorPie) (m : IdentityMap)
    (h : p.build_identity_map = some m) :
    m.lookupChecksum 0 = some (Identity.make p []) := by
  unfold ColorPie.build_identity_map at h
  obtain ⟨m1, hm1, hfold⟩ := Option.bind_eq_some.mp h
  have h0 : (IdentityMap.mk p []).add (Identity.make p [])
      = some (IdentityMap.mk p [(0, Identity.make p [])]) := rfl
  rw [h0] at hm1
  have hm1v : m1 = IdentityMap.mk p [(0, Identity.make p [])] :=
    (Option.some.inj hm1).symm
  have hP1 : m1.lookupChecksum 0 = some (Identity.make p []) := by
    rw [hm1v]; rfl
  refine foldlM_option_inv (fun mm => mm.lookupChecksum 0 = some (Identity.make p []))
    _ ?_ _ m1 m hP1 hfold
  intro b n b2 hPb hb
  refine foldlM_option_inv (fun mm => mm.lookupChecksum 0 = some (Identity.make p []))
    _ ?_ _ b b2 hPb hb
  intro b' st b2' hPb' hb'
  by_cases hskip : p.colors.length % st = 0 ∧ p.colors.length / st < n
  · rw [if_pos hskip] at hb'
    cases hb'
    exact hPb'
  · rw [if_neg hskip] at hb'
    refine foldlM_option_inv (fun mm => mm.lookupChecksum 0 = some (Identity.make p []))
      _ ?_ _ b' b2' hPb' hb'
    intro b'' color b2'' hPb'' hb''
    obtain ⟨chain, _, hadd2⟩ := Option.bind_eq_some.mp hb''
    exact add_preserves b'' b2'' (Identity.make p chain) 0 (Identity.make p [])
      hPb'' hadd2

/-- C10: on any registry built by `build_identity_map`, looking up the empty
string succeeds and returns the seeded colorless identity — parsing `""`
yields the empty identity with checksum 0, and checksum 0 is always bound
because the algorithm registers the empty identity before anything else. -/
theorem empty_string_lookup (p : ColorPie) (m : IdentityMap)
    (h : p.build_identity_map = some m) :
    m.getStr "" = some (Identity.make p []) := by
  have hseed := build_seeds_colorless p m h
  have hparse : m.pie.parse "" = some (Identity.make m.pie []) := rfl
  have hattempt : (m.pie.parse "").bind
      (fun mtch => mtch.checksum?.bind (fun cks => m.lookupChecksum cks))
      = some (Identity.make p []) := by
    rw [hparse]
    show ((Identity.make m.pie []).checksum?).bind (fun cks => m.lookupChecksum cks)
      = some (Identity.make p [])
    rw [show (Identity.make m.pie []).checksum? = some 0 from rfl]
    exact hseed
  unfold IdentityMap.getStr
  rw [hattempt]

/-- C10 witness: looking up `""` on the module's built registry (before the
describe pass) returns the colorless identity. -/
theorem empty_string_lookup_witness :
    (MagicColorPie.build_identity_map).bind (fun m => m.getStr "")
      = some (Identity.make MagicColorPie []) := by
  cases hb : MagicColorPie.build_identity_map with
  | none => exact absurd hb (by decide)
  | some m =>
    show m.getStr "" = some (Identity.make MagicColorPie [])
    exact empty_string_lookup MagicColorPie m hb

/-- The amended spec's matcher: the lowered search string is a substring of
the lowered display name, or EQUALS one of the lowered aliases. -/
def matchesSpec (i : Identity) (k : String) : Bool :=
  strContains (strLower i.name) (strLower k)
  || (i.aliases.map strLower).contains (strLower k)

theorem matches_eq_matchesSpec (i : Identity) (k : String) :
    i.matches k = matchesSpec i k := by
  unfold Identity.matches matchesSpec
  by_cases h1 : strContains (strLower i.name) (strLower k) <;>
    by_cases h2 : (i.aliases.map (fun a => strLower a)).contains (strLower k) <;>
      simp [h1, h2]

/-- String lookup as the amended spec describes it: attempt 1 parses the key
as letter codes and resolves the checksum; if the parse fails OR the parsed
checksum is unbound, attempt 2 scans registered identities in insertion
order for the first `matchesSpec`; the result is `none` (key-not-found) only
when both attempts fail. -/
def lookupSpec (m : IdentityMap) (k : String) : Option Identity :=
  match (m.pie.parse k).bind
      (fun mtch => mtch.checksum?.bind (fun cks => m.lookupChecksum cks)) with
  | some v => some v
  | none => (m.map.find? (fun e => matchesSpec e.2 k)).map (fun e => e.2)

/-- C3 (amended): string lookup refines the amended spec description —
`__getitem__` coincides with `lookupSpec`; a successful letter-code parse
whose checksum is registered always wins (precedence); and the lookup fails
exactly when both the parse-and-resolve attempt and the insertion-order
scan fail. -/
theorem lookup_string_spec (m : IdentityMap) (k : String) :
    m.getStr k = lookupSpec m k
    ∧ (∀ i2 v : Identity, m.pie.parse k = some i2
        → i2.checksum?.bind (fun cks => m.lookupChecksum cks) = some v
        → m.getStr k = some v)
    ∧ (m.getStr k = none
        ↔ ((m.pie.parse k).bind
            (fun mtch => mtch.checksum?.bind (fun cks => m.lookupChecksum cks)) = none
          ∧ m.map.find? (fun e => e.2.matches k) = none)) := by
  refine ⟨?_, ?_, ?_⟩
  · unfold IdentityMap.getStr lookupSpec
    rw [show (fun e : Nat × Identity => e.2.matches k)
        = (fun e : Nat × Identity => matchesSpec e.2 k) from
      funext (fun e => matches_eq_matchesSpec e.2 k)]
  · intro i2 v hp hv
    have hatt : (m.pie.parse k).bind
        (fun mtch => mtch.checksum?.bind (fun cks => m.lookupChecksum cks))
        = some v := by
      rw [hp]
      exact hv
    unfold IdentityMap.getStr
    rw [hatt]
  · unfold IdentityMap.getStr
    cases hatt : (m.pie.parse k).bind
        (fun mtch => mtch.checksum?.bind (fun cks => m.lookupChecksum cks)) with
    | some v => simp
    | none => simp [Option.map_eq_none']

/-- C3 counterexample: in the module's own registry, the Esper identity
carries the alias `"Obscura"`, which case-insensitively CONTAINS the search
string `"bscura"` — yet the string lookup of `"bscura"` raises key-not-found,
because alias matching is exact equality, not substring containment. -/
theorem alias_substring_not_matched :
    (MagicIdentities.bind (fun m => m.getStr "bscura")) = none
    ∧ (MagicIdentities.bind (fun m => (m.getStr "Obscura").map (fun i => i.aliases)))
        = some ["Obscura"]
    ∧ strContains (strLower "Obscura") (strLower "bscura") = true := by
  refine ⟨by rfl, by rfl, by rfl⟩

/-- C3 witness: on a registry holding mono-white at checksum 1, the
letter-code parse of `"w"` resolves and wins. -/
theorem lookup_string_spec_witness :
    (IdentityMap.mk MagicColorPie [(1, Identity.make MagicColorPie [White])]).getStr "w"
      = some (Identity.make MagicColorPie [White]) :=
  (lookup_string_spec
      (IdentityMap.mk MagicColorPie [(1, Identity.make MagicColorPie [White])]) "w").2.1
    (Identity.make MagicColorPie [White]) (Identity.make MagicColorPie [White])
    (by rfl) (by rfl)

/-- C1: evaluating the generator at a six-color palette (the repository's own
six-color test input) yields a registry of 40 entries, not the 2^6 = 64 the
claim and the test expect, while the naive `combinations()` enumeration does
produce 64; at the five-color palette both agree at 2^5 = 32. -/
theorem six_color_registry_size :
    (SixPie.build_identity_map).map (fun m => m.map.length) = some 40
    ∧ (SixPie.combinations).length = 2 ^ 6
    ∧ (40 : Nat) ≠ 2 ^ 6
    ∧ (MagicColorPie.build_identity_map).map (fun m => m.map.length) = some 32
    ∧ (MagicColorPie.combinations).length = 2 ^ 5 := by
  refine ⟨by rfl, by rfl, by decide, by rfl, by rfl⟩
